import Mathlib

/-!
Verification of the two synthtool-driven automation scripts `owlbot.py` and
`synth.py` of the googleapis/nodejs-storage repository.

Both scripts fetch the node-library template set (with
`source_location='build/src'`), copy it into the working tree (`owlbot.py`
with a fixed exclusion list, `synth.py` with none), and perform one literal
substitution inside `.circleci/config.yml`; `owlbot.py` additionally invokes
`node.fix()` last.

The working tree is modelled as an association list from paths to file
contents; the external synthtool operations (`s.copy`, `s.replace`,
`node.fix`, `gcp.CommonTemplates().node_library`) are modelled from the
spec's description of them, since their code lives outside this repository.
-/

namespace NodeStorageSynth

/-- Worker for `replaceAll`, structurally recursive on a step budget `fuel`;
each step consumes at least one element of the scanned list, so any
`fuel ≥ s.length` yields the same result (see `replaceAllGo_fuel_eq`). -/
def replaceAllGo [DecidableEq α] (p r : List α) : Nat → List α → List α
  | _, [] => []
  | 0, s => s
  | fuel + 1, a :: s =>
    if p.isPrefixOf (a :: s) ∧ p ≠ [] then
      r ++ replaceAllGo p r fuel ((a :: s).drop p.length)
    else
      a :: replaceAllGo p r fuel s

/-- Literal replace-all on lists (the semantics of a literal string
substitution applied to file contents): scan left to right; at each position,
if the pattern `p` is a (non-empty) prefix of the rest, emit the replacement
`r` and skip over the matched occurrence, otherwise emit the current
element and continue. -/
def replaceAll [DecidableEq α] (p r s : List α) : List α :=
  replaceAllGo p r s.length s

/-- String-level wrapper for `replaceAll`. -/
def replaceAllS (search repl content : String) : String :=
  ⟨replaceAll search.data repl.data content.data⟩

/-- A working tree: an association list from file paths to file contents. -/
abbrev FileTree := List (String × String)

instance {ε α : Type _} [DecidableEq ε] [DecidableEq α] :
    DecidableEq (Except ε α) := fun a b =>
  match a, b with
  | .ok x, .ok y =>
      if h : x = y then isTrue (by rw [h])
      else isFalse (fun hc => h (Except.ok.inj hc))
  | .error x, .error y =>
      if h : x = y then isTrue (by rw [h])
      else isFalse (fun hc => h (Except.error.inj hc))
  | .ok _, .error _ => isFalse (fun hc => Except.noConfusion hc)
  | .error _, .ok _ => isFalse (fun hc => Except.noConfusion hc)

/-- Content of the file at `path`, if present. -/
def lookupFile (tree : FileTree) (path : String) : Option String :=
  (tree.find? (fun e => e.1 == path)).map (·.2)

/-- The fixed exclusion list of `owlbot.py` (`s.copy(templates, excludes=...)`). -/
def owlbotExcludes : List String :=
  [".jsdoc.js",
   ".github/release-please.yml",
   ".github/sync-repo-settings.yaml",
   ".github/workflows/ci.yaml",
   ".prettierrc.js",
   ".mocharc.js",
   ".kokoro/continuous/node14/system-test.cfg",
   ".kokoro/presubmit/node14/system-test.cfg",
   ".kokoro/release/publish.cfg",
   ".kokoro/system-test.sh",
   ".kokoro/samples-test.sh"]

/-- Modelled from the spec: the set of files `s.copy` writes is the template
set minus the excluded paths ("files are written into the invoking
repository's working tree, excluding a fixed list of paths"). -/
def copiedSet (templates : List (String × String)) (excludes : List String) :
    List (String × String) :=
  templates.filter (fun f => !(excludes.contains f.1))

/-- Write (create or overwrite) one file in the tree. -/
def writeFile (tree : FileTree) (path content : String) : FileTree :=
  if tree.any (fun e => e.1 == path) then
    tree.map (fun e => if e.1 == path then (e.1, content) else e)
  else
    tree ++ [(path, content)]

/-- Modelled from the spec: `s.copy` writes the non-excluded template files
into the invoking repository's working tree. -/
def copyInto (tree : FileTree) (templates : List (String × String))
    (excludes : List String) : FileTree :=
  (copiedSet templates excludes).foldl (fun t f => writeFile t f.1 f.2) tree

/-- Modelled from the spec: `s.replace` applies a literal substitution inside
the named file; "the named file must exist for the replacement to apply",
and on a missing file the natively raised error propagates. -/
def replaceFile (tree : FileTree) (path search repl : String) :
    Except String FileTree :=
  match lookupFile tree path with
  | none => .error ("no file matching " ++ path)
  | some _ =>
      .ok (tree.map (fun e =>
        (e.1, if e.1 == path then replaceAllS search repl e.2 else e.2)))

/-- The search text of the substitution in both scripts. -/
def searchText : String := "command: npm run system-test"

/-- The replacement text of the substitution in both scripts. -/
def replText : String := "command: mkdir $HOME/.config && npm run system-test"

/-- The file targeted by the substitution in both scripts. -/
def configPath : String := ".circleci/config.yml"

/-- Observable operations of a script run, in the order performed. -/
inductive SynthEvent
  | fetchTemplates (sourceLocation : String)
  | copy (excludes : List String)
  | replace (path search repl : String)
  | fix
deriving DecidableEq

/-- `owlbot.py`: fetch the node-library templates for `build/src`, copy them
minus the exclusion list, substitute inside `.circleci/config.yml`, then run
`node.fix()`. `nodeLibrary` models the external
`gcp.CommonTemplates().node_library` and `nodeFix` the external `node.fix`;
a failure of the substitution propagates. Returns the event trace and the
final tree (or the propagated error). -/
def owlbotRun (nodeLibrary : String → List (String × String))
    (nodeFix : FileTree → FileTree) (tree : FileTree) :
    List SynthEvent × Except String FileTree :=
  let templates := nodeLibrary "build/src"
  let t1 := copyInto tree templates owlbotExcludes
  match replaceFile t1 configPath searchText replText with
  | .error e =>
      ([.fetchTemplates "build/src", .copy owlbotExcludes,
        .replace configPath searchText replText], .error e)
  | .ok t2 =>
      ([.fetchTemplates "build/src", .copy owlbotExcludes,
        .replace configPath searchText replText, .fix], .ok (nodeFix t2))

/-- `synth.py`: fetch the node-library templates for `build/src`, copy all of
them (no exclusions), then substitute inside `.circleci/config.yml`; a
failure of the substitution propagates. -/
def synthRun (nodeLibrary : String → List (String × String))
    (tree : FileTree) : List SynthEvent × Except String FileTree :=
  let templates := nodeLibrary "build/src"
  let t1 := copyInto tree templates []
  match replaceFile t1 configPath searchText replText with
  | .error e =>
      ([.fetchTemplates "build/src", .copy [],
        .replace configPath searchText replText], .error e)
  | .ok t2 =>
      ([.fetchTemplates "build/src", .copy [],
        .replace configPath searchText replText], .ok t2)

/-! ### Properties of `replaceAll` -/

theorem replaceAllGo_fuel_eq [DecidableEq α] (p r : List α) :
    ∀ fuel₁, ∀ s : List α, ∀ fuel₂, s.length ≤ fuel₁ → s.length ≤ fuel₂ →
      replaceAllGo p r fuel₁ s = replaceAllGo p r fuel₂ s := by
  intro fuel₁
  induction fuel₁ with
  | zero =>
    intro s fuel₂ h₁ _
    have hs : s = [] := List.length_eq_zero.mp (Nat.le_zero.mp h₁)
    subst hs
    cases fuel₂ <;> rfl
  | succ f ih =>
    intro s fuel₂ h₁ h₂
    cases s with
    | nil => cases fuel₂ <;> rfl
    | cons a s' =>
      cases fuel₂ with
      | zero => simp at h₂
      | succ g =>
        simp only [replaceAllGo]
        by_cases hc : p.isPrefixOf (a :: s') ∧ p ≠ []
        · rw [if_pos hc, if_pos hc]
          have hp : 1 ≤ p.length := List.length_pos.mpr hc.2
          simp only [List.length_cons] at h₁ h₂
          have hd₁ : ((a :: s').drop p.length).length ≤ f := by
            simp only [List.length_drop, List.length_cons]; omega
          have hd₂ : ((a :: s').drop p.length).length ≤ g := by
            simp only [List.length_drop, List.length_cons]; omega
          rw [ih _ g hd₁ hd₂]
        · rw [if_neg hc, if_neg hc]
          simp only [List.length_cons] at h₁ h₂
          have hs₁ : s'.length ≤ f := by omega
          have hs₂ : s'.length ≤ g := by omega
          rw [ih _ g hs₁ hs₂]

theorem replaceAll_nil [DecidableEq α] (p r : List α) :
    replaceAll p r [] = [] := rfl

theorem replaceAll_cons [DecidableEq α] (p r : List α) (a : α) (s : List α) :
    replaceAll p r (a :: s) =
      if p.isPrefixOf (a :: s) ∧ p ≠ [] then
        r ++ replaceAll p r ((a :: s).drop p.length)
      else
        a :: replaceAll p r s := by
  show replaceAllGo p r (s.length + 1) (a :: s) = _
  simp only [replaceAllGo]
  by_cases hc : p.isPrefixOf (a :: s) ∧ p ≠ []
  · rw [if_pos hc, if_pos hc]
    have hp : 1 ≤ p.length := List.length_pos.mpr hc.2
    have hd : ((a :: s).drop p.length).length ≤ s.length := by
      simp only [List.length_drop, List.length_cons]; omega
    rw [replaceAll, replaceAllGo_fuel_eq p r s.length _ _ hd le_rfl]
  · rw [if_neg hc, if_neg hc]
    rfl

/-- Decomposing an occurrence of `p` inside `a ++ b`: it lies inside `a`,
inside `b`, or spans the junction (a non-empty suffix of `a` glued to a
non-empty prefix of `b`). -/
theorem infix_append_cases {α : Type _} {p a b : List α} (h : p <:+: a ++ b) :
    p <:+: a ∨ p <:+: b ∨
      ∃ x y, p = x ++ y ∧ x ≠ [] ∧ y ≠ [] ∧ x <:+ a ∧ y <+: b := by
  obtain ⟨s, t, hst⟩ := h
  have h₁ : s ++ (p ++ t) = a ++ b := by simpa [List.append_assoc] using hst
  rcases List.append_eq_append_iff.mp h₁ with ⟨a', ha, hpt⟩ | ⟨c', hs, hb⟩
  · rcases List.append_eq_append_iff.mp hpt with ⟨a'', ha', ht⟩ | ⟨c', hpc, hbc⟩
    · left
      exact ⟨s, a'', by rw [ha, ha', List.append_assoc]⟩
    · by_cases hc0 : c' = []
      · left
        subst hc0
        have hpa : p = a' := by simpa using hpc
        have hsuf : p <:+ a := ⟨s, by rw [hpa, ← ha]⟩
        exact hsuf.isInfix
      · by_cases ha0 : a' = []
        · right; left
          subst ha0
          have hpb : p = c' := by simpa using hpc
          have hpre' : p <+: b := ⟨t, by rw [hpb, ← hbc]⟩
          exact hpre'.isInfix
        · right; right
          exact ⟨a', c', hpc, ha0, hc0, ⟨s, ha.symm⟩, ⟨t, hbc.symm⟩⟩
  · right; left
    exact ⟨c', t, by rw [hb, List.append_assoc]⟩

/-- If `p` does not occur in `s`, replacing it is the identity. -/
theorem replaceAll_eq_self_of_absent [DecidableEq α] (p r : List α) :
    ∀ s : List α, ¬ p <:+: s → replaceAll p r s = s := by
  have go : ∀ fuel, ∀ s : List α, s.length ≤ fuel → ¬ p <:+: s →
      replaceAllGo p r fuel s = s := by
    intro fuel
    induction fuel with
    | zero =>
      intro s h₁ _
      have hs : s = [] := List.length_eq_zero.mp (Nat.le_zero.mp h₁)
      subst hs; rfl
    | succ f ih =>
      intro s h₁ hni
      cases s with
      | nil => rfl
      | cons a s' =>
        simp only [replaceAllGo]
        rw [if_neg, ih s' (by simp only [List.length_cons] at h₁; omega)
              (fun hi => hni (List.infix_cons hi))]
        rintro ⟨hpre, -⟩
        exact hni (List.isPrefixOf_iff_prefix.mp hpre).isInfix
  intro s hni
  exact go s.length s le_rfl hni

/-- If `p` occurs in `s` (and is non-empty), the replacement `r` occurs in
the output. -/
theorem repl_occurs_of_occurs [DecidableEq α] (p r : List α) (hp : p ≠ []) :
    ∀ s : List α, p <:+: s → r <:+: replaceAll p r s := by
  have go : ∀ fuel, ∀ s : List α, s.length ≤ fuel → p <:+: s →
      r <:+: replaceAllGo p r fuel s := by
    intro fuel
    induction fuel with
    | zero =>
      intro s h₁ hi
      have hs : s = [] := List.length_eq_zero.mp (Nat.le_zero.mp h₁)
      subst hs
      exact absurd (List.infix_nil.mp hi) hp
    | succ f ih =>
      intro s h₁ hi
      cases s with
      | nil => exact absurd (List.infix_nil.mp hi) hp
      | cons a s' =>
        simp only [replaceAllGo]
        by_cases hc : p.isPrefixOf (a :: s') ∧ p ≠ []
        · rw [if_pos hc]
          exact ⟨[], replaceAllGo p r f ((a :: s').drop p.length), rfl⟩
        · rw [if_neg hc]
          have hnpre : ¬ p <+: a :: s' := fun hpre =>
            hc ⟨List.isPrefixOf_iff_prefix.mpr hpre, hp⟩

          rcases List.infix_cons_iff.mp hi with hpre | hi'
          · exact absurd hpre hnpre
          · exact List.infix_cons
              (ih s' (by simp only [List.length_cons] at h₁; omega) hi')
  intro s hi
  exact go s.length s le_rfl hi

/-- Core invariant: under the overlap side conditions on `p` and `r`,
the output of `replaceAll` contains no occurrence of `p`, and every
non-empty suffix of `p` that is a prefix of the output was already a prefix
of the input. -/
theorem replaceAll_invariant [DecidableEq α] {p r : List α}
    (hp : p ≠ []) (hlen : p.length < r.length)
    (hA : ¬ p <:+: r)
    (hB : ∀ x, x <:+ r → x <+: p → x = [])
    (hC : ∀ x, x <+: r → x <:+ p → x = []) :
    ∀ s : List α, ¬ p <:+: replaceAll p r s ∧
      (∀ x, x ≠ [] → x <:+ p → x <+: replaceAll p r s → x <+: s) := by
  have go : ∀ fuel, ∀ s : List α, s.length ≤ fuel →
      ¬ p <:+: replaceAllGo p r fuel s ∧
        (∀ x, x ≠ [] → x <:+ p → x <+: replaceAllGo p r fuel s → x <+: s) := by
    intro fuel
    induction fuel with
    | zero =>
      intro s h₁
      have hs : s = [] := List.length_eq_zero.mp (Nat.le_zero.mp h₁)
      subst hs
      exact ⟨fun hi => hp (List.infix_nil.mp hi),
        fun x hx _ hpre => absurd (List.prefix_nil.mp hpre) hx⟩
    | succ f ih =>
      intro s h₁
      cases s with
      | nil =>
        exact ⟨fun hi => hp (List.infix_nil.mp hi),
          fun x hx _ hpre => absurd (List.prefix_nil.mp hpre) hx⟩
      | cons a s' =>
        simp only [List.length_cons] at h₁
        by_cases hc : p.isPrefixOf (a :: s') ∧ p ≠ []
        · have hp1 : 1 ≤ p.length := List.length_pos.mpr hc.2
          have hd : ((a :: s').drop p.length).length ≤ f := by
            simp only [List.length_drop, List.length_cons]; omega
          have ihd := ih _ hd
          constructor
          · intro hi
            rw [replaceAllGo, if_pos hc] at hi
            rcases infix_append_cases hi with hir | hiT | ⟨x, y, hxy, hx, _, hxr, _⟩
            · exact hA hir
            · exact ihd.1 hiT
            · exact hx (hB x hxr ⟨y, hxy.symm⟩)
          · intro x hx hxs hxpre
            rw [replaceAllGo, if_pos hc] at hxpre
            have hxr : x <+: r := by
              refine List.prefix_of_prefix_length_le hxpre (List.prefix_append r _) ?_
              exact le_trans hxs.length_le (le_of_lt hlen)
            exact absurd (hC x hxr hxs) hx
        · have hnpre : ¬ p <+: a :: s' := fun hpre =>
            hc ⟨List.isPrefixOf_iff_prefix.mpr hpre, hp⟩
          have ihs := ih s' (by omega)
          constructor
          · intro hi
            rw [replaceAllGo, if_neg hc] at hi
            rcases List.infix_cons_iff.mp hi with hpre | hi'
            · cases p with
              | nil => exact hp rfl
              | cons ph pt =>
                obtain ⟨rfl, hpt⟩ := List.cons_prefix_cons.mp hpre
                cases pt with
                | nil => exact hnpre (List.cons_prefix_cons.mpr ⟨rfl, List.nil_prefix⟩)
                | cons b bt =>
                  have hsuf : (b :: bt) <:+ ph :: b :: bt := ⟨[ph], rfl⟩
                  have := ihs.2 (b :: bt) (by simp) hsuf hpt
                  exact hnpre (List.cons_prefix_cons.mpr ⟨rfl, this⟩)
            · exact ihs.1 hi'
          · intro x hx hxs hxpre
            rw [replaceAllGo, if_neg hc] at hxpre
            cases x with
            | nil => exact absurd rfl hx
            | cons xh xt =>
              obtain ⟨rfl, hxt⟩ := List.cons_prefix_cons.mp hxpre
              cases xt with
              | nil => exact List.cons_prefix_cons.mpr ⟨rfl, List.nil_prefix⟩
              | cons b bt =>
                have hsuf : (b :: bt) <:+ p := by
                  obtain ⟨w, hw⟩ := hxs
                  exact ⟨w ++ [xh], by rw [← hw]; simp⟩
                have := ihs.2 (b :: bt) (by simp) hsuf hxt
                exact List.cons_prefix_cons.mpr ⟨rfl, this⟩
  intro s
  exact go s.length s le_rfl

/-! ### The concrete substitution pair -/

/-- `needle` occurs as contiguous text inside `hay`. -/
def containsText (hay needle : String) : Prop := needle.data <:+: hay.data

/-- The invocation literal shared by search and replacement text. -/
def invocationText : String := "npm run system-test"

theorem searchRepl_hB :
    ∀ x : List Char, x <:+ replText.data → x <+: searchText.data → x = [] := by
  have h : ∀ x ∈ replText.data.tails, x <+: searchText.data → x = [] := by decide
  intro x hx
  exact h x ((List.mem_tails x _).mpr hx)

theorem searchRepl_hC :
    ∀ x : List Char, x <+: replText.data → x <:+ searchText.data → x = [] := by
  have h : ∀ x ∈ replText.data.inits, x <:+ searchText.data → x = [] := by decide
  intro x hx
  exact h x ((List.mem_inits x _).mpr hx)

/-- The concrete search/replacement pair of both scripts satisfies the
overlap side conditions, so the substitution output never contains the
search text. -/
theorem subst_no_search :
    ∀ s : List Char,
      ¬ searchText.data <:+: replaceAll searchText.data replText.data s ∧
      (∀ x, x ≠ [] → x <:+ searchText.data →
        x <+: replaceAll searchText.data replText.data s → x <+: s) :=
  replaceAll_invariant (by decide) (by decide) (by decide) searchRepl_hB searchRepl_hC

/-- The substitution is idempotent on contents. -/
theorem replaceAllS_idem (c : String) :
    replaceAllS searchText replText (replaceAllS searchText replText c) =
      replaceAllS searchText replText c :=
  congrArg String.mk (replaceAll_eq_self_of_absent _ _ _ (subst_no_search c.data).1)

/-! ### File-level lemmas -/

theorem lookupFile_map_update (f : String → String) (path : String) :
    ∀ (tree : FileTree) (q : String),
      lookupFile (tree.map (fun e => (e.1, if e.1 == path then f e.2 else e.2))) q =
        if q = path then (lookupFile tree q).map f else lookupFile tree q := by
  intro tree
  induction tree with
  | nil => intro q; by_cases hqp : q = path <;> simp [lookupFile, hqp]
  | cons e tr ih =>
    intro q
    obtain ⟨k, v⟩ := e
    by_cases heq : k = q
    · subst heq
      by_cases hqp : k = path
      · subst hqp
        simp [lookupFile, List.find?_cons]
      · simp [lookupFile, List.find?_cons, hqp]
    · have hf : (k == q) = false := beq_eq_false_iff_ne.mpr heq
      have h := ih q
      by_cases hqp : q = path
      · subst hqp
        simp only [lookupFile, List.map_cons, List.find?_cons, hf] at h ⊢
        simpa using h
      · simp only [lookupFile, List.map_cons, List.find?_cons, hf, if_neg hqp] at h ⊢
        simpa [hqp] using h

theorem replaceFile_ok_eq (tree : FileTree) (path search repl c : String)
    (h : lookupFile tree path = some c) :
    replaceFile tree path search repl =
      .ok (tree.map (fun e =>
        (e.1, if e.1 == path then replaceAllS search repl e.2 else e.2))) := by
  simp [replaceFile, h]

theorem replaceFile_error_eq (tree : FileTree) (path search repl : String)
    (h : lookupFile tree path = none) :
    replaceFile tree path search repl = .error ("no file matching " ++ path) := by
  simp [replaceFile, h]

/-- The copy step of `synth.py` (no exclusions) copies the full template set. -/
theorem copiedSet_nil (templates : List (String × String)) :
    copiedSet templates [] = templates := by
  simp [copiedSet]

/-- Splitting a list by a Boolean predicate preserves total length. -/
theorem length_filter_split (p : α → Bool) :
    ∀ l : List α, (l.filter p).length + (l.filter (fun a => !(p a))).length = l.length := by
  intro l
  induction l with
  | nil => rfl
  | cons a l ih =>
    cases hpa : p a <;> simp [List.filter_cons, hpa, ← ih] <;> omega

/-- Counting the members of a duplicate-free list `L` that belong to a
duplicate-free sublist `ex` of it yields `ex.length`. -/
theorem length_filter_contains {ex L : List String} (hL : L.Nodup) (hex : ex.Nodup)
    (hsub : ∀ a ∈ ex, a ∈ L) :
    (L.filter (fun a => ex.contains a)).length = ex.length := by
  have hperm : List.Perm (L.filter (fun a => ex.contains a)) ex := by
    rw [List.perm_ext_iff_of_nodup (hL.filter _) hex]
    intro a
    simp only [List.mem_filter, List.contains, List.elem_eq_mem, decide_eq_true_iff]
    exact ⟨fun h => h.2, fun h => ⟨hsub a h, h⟩⟩
  exact hperm.length_eq

/-- A successful substitution rewrites the config file's content with
`replaceAllS`. -/
theorem replaceFile_post (tree : FileTree) (c : String)
    (h : lookupFile tree configPath = some c) :
    ∃ t, replaceFile tree configPath searchText replText = .ok t ∧
      lookupFile t configPath = some (replaceAllS searchText replText c) := by
  refine ⟨_, replaceFile_ok_eq tree configPath searchText replText c h, ?_⟩
  rw [lookupFile_map_update (replaceAllS searchText replText) configPath tree configPath]
  simp [h]

/-- Substituted content contains the replacement text and no longer contains
the search text. -/
theorem replaceAllS_post (c : String) (hc : containsText c searchText) :
    containsText (replaceAllS searchText replText c) replText ∧
      ¬ containsText (replaceAllS searchText replText c) searchText := by
  constructor
  · exact repl_occurs_of_occurs _ _ (by decide) c.data hc
  · exact (subst_no_search c.data).1

/-! ### The claims -/

/-- Claim C1: for both scripts, the substitution step replaces
"command: npm run system-test" with
"command: mkdir $HOME/.config && npm run system-test" inside
`.circleci/config.yml`: after a run on a working tree whose copied config
file contains the search text, the file contains the replacement string and
no longer contains the original full invocation literal
"command: npm run system-test" (`node.fix` is assumed not to touch the
config file's content). -/
theorem C1_substitution
    (nodeLibrary : String → List (String × String)) (nodeFix : FileTree → FileTree)
    (hfix : ∀ t, lookupFile (nodeFix t) configPath = lookupFile t configPath)
    (tree₁ tree₂ : FileTree) (c₁ c₂ : String)
    (h₁ : lookupFile (copyInto tree₁ (nodeLibrary "build/src") owlbotExcludes)
        configPath = some c₁)
    (hc₁ : containsText c₁ searchText)
    (h₂ : lookupFile (copyInto tree₂ (nodeLibrary "build/src") []) configPath = some c₂)
    (hc₂ : containsText c₂ searchText) :
    (∃ t, (owlbotRun nodeLibrary nodeFix tree₁).2 = .ok t ∧
      ∃ c', lookupFile t configPath = some c' ∧
        containsText c' replText ∧ ¬ containsText c' searchText) ∧
    (∃ t, (synthRun nodeLibrary tree₂).2 = .ok t ∧
      ∃ c', lookupFile t configPath = some c' ∧
        containsText c' replText ∧ ¬ containsText c' searchText) := by
  constructor
  · obtain ⟨t, hok, hlk⟩ := replaceFile_post _ c₁ h₁
    refine ⟨nodeFix t, ?_, replaceAllS searchText replText c₁, ?_,
      replaceAllS_post c₁ hc₁⟩
    · simp [owlbotRun, hok]
    · rw [hfix t]; exact hlk
  · obtain ⟨t, hok, hlk⟩ := replaceFile_post _ c₂ h₂
    refine ⟨t, ?_, replaceAllS searchText replText c₂, hlk,
      replaceAllS_post c₂ hc₂⟩
    simp [synthRun, hok]

theorem C1_substitution_witness :
    (∃ t, (owlbotRun (fun _ => [(configPath, searchText)]) id []).2 = .ok t ∧
      ∃ c', lookupFile t configPath = some c' ∧
        containsText c' replText ∧ ¬ containsText c' searchText) ∧
    (∃ t, (synthRun (fun _ => [(configPath, searchText)]) []).2 = .ok t ∧
      ∃ c', lookupFile t configPath = some c' ∧
        containsText c' replText ∧ ¬ containsText c' searchText) :=
  C1_substitution (fun _ => [(configPath, searchText)]) id (fun _ => rfl) [] []
    searchText searchText (by decide) List.infix_rfl (by decide) List.infix_rfl

/-- Claim C2: none of the paths in `owlbot.py`'s fixed exclusion list
appears among the paths of the files its copy step copies. -/
theorem C2_excluded_not_copied (templates : List (String × String)) :
    ∀ pth ∈ owlbotExcludes,
      pth ∉ (copiedSet templates owlbotExcludes).map Prod.fst := by
  intro pth hmem hcontra
  rcases List.mem_map.mp hcontra with ⟨f, hf, rfl⟩
  have hnc := (List.mem_filter.mp hf).2
  simp only [List.contains, List.elem_eq_mem, Bool.not_eq_true',
    decide_eq_false_iff_not] at hnc
  exact hnc hmem

theorem C2_excluded_not_copied_witness :
    ".jsdoc.js" ∉
      (copiedSet [(".jsdoc.js", "a"), ("README.md", "b")] owlbotExcludes).map Prod.fst :=
  C2_excluded_not_copied [(".jsdoc.js", "a"), ("README.md", "b")] ".jsdoc.js" (by decide)

/-- Claim C3: the substitution is idempotent: applying the replace step to a
tree it already produced changes nothing, and re-substituting an already
substituted content is a no-op. -/
theorem C3_idempotent :
    (∀ tree t : FileTree,
        replaceFile tree configPath searchText replText = .ok t →
        replaceFile t configPath searchText replText = .ok t) ∧
    (∀ c : String,
        replaceAllS searchText replText (replaceAllS searchText replText c) =
          replaceAllS searchText replText c) := by
  constructor
  · intro tree t h
    cases hl : lookupFile tree configPath with
    | none =>
      rw [replaceFile_error_eq tree _ _ _ hl] at h
      cases h
    | some c =>
      rw [replaceFile_ok_eq tree _ _ _ c hl] at h
      injection h with h'
      subst h'
      have hl₂ : lookupFile
          (tree.map (fun e =>
            (e.1, if e.1 == configPath then replaceAllS searchText replText e.2 else e.2)))
          configPath = some (replaceAllS searchText replText c) := by
        rw [lookupFile_map_update]
        simp [hl]
      rw [replaceFile_ok_eq _ _ _ _ _ hl₂, List.map_map]
      refine congrArg Except.ok (List.map_congr_left ?_)
      intro e _
      by_cases hc : e.1 == configPath
      · simp [Function.comp, hc, replaceAllS_idem]
      · simp [Function.comp, hc]
  · exact replaceAllS_idem

theorem C3_idempotent_witness :
    replaceFile [(configPath, replText)] configPath searchText replText =
      .ok [(configPath, replText)] :=
  C3_idempotent.1 [(configPath, searchText)] [(configPath, replText)] (by decide)

/-- Claim C4: `synth.py` copies the full template set with zero exclusions,
and `owlbot.py` copies the full set minus its fixed exclusion list: when the
template paths are duplicate-free and contain every excluded path, the
copied set's size is the full size minus the exclusion list's size. -/
theorem C4_copy_set_sizes (templates : List (String × String))
    (hnodup : (templates.map Prod.fst).Nodup)
    (hsub : ∀ e ∈ owlbotExcludes, e ∈ templates.map Prod.fst) :
    copiedSet templates [] = templates ∧
    (copiedSet templates owlbotExcludes).length =
      templates.length - owlbotExcludes.length := by
  refine ⟨copiedSet_nil templates, ?_⟩
  have hsplit := length_filter_split
    (fun f : String × String => owlbotExcludes.contains f.1) templates
  have hcount : (templates.filter
      (fun f => owlbotExcludes.contains f.1)).length = owlbotExcludes.length := by
    have hlen : ((templates.map Prod.fst).filter
        (fun a => owlbotExcludes.contains a)).length
        = (templates.filter (fun f => owlbotExcludes.contains f.1)).length := by
      rw [List.filter_map, List.length_map]
      rfl
    rw [← hlen]
    exact length_filter_contains hnodup (by decide) hsub
  rw [copiedSet]
  omega

theorem C4_copy_set_sizes_witness :
    copiedSet (owlbotExcludes.map (fun p => (p, "")) ++ [("README.md", "r")]) [] =
        owlbotExcludes.map (fun p => (p, "")) ++ [("README.md", "r")] ∧
    (copiedSet (owlbotExcludes.map (fun p => (p, "")) ++ [("README.md", "r")])
        owlbotExcludes).length =
      (owlbotExcludes.map (fun p => (p, "")) ++ [("README.md", "r")]).length -
        owlbotExcludes.length :=
  C4_copy_set_sizes (owlbotExcludes.map (fun p => (p, "")) ++ [("README.md", "r")])
    (by decide) (by decide)

/-- Claim C5 as stated is refuted: a run of `owlbot.py` in which the
substitution step fails (here: the template set and the tree are empty, so
`.circleci/config.yml` is missing) never reaches `node.fix`, so not every
run invokes the fix step. -/
theorem C5_fix_counterexample :
    SynthEvent.fix ∉ (owlbotRun (fun _ => []) id []).1 := by decide

/-- Claim C5 (amended): every run of `owlbot.py` in which the preceding
steps succeed invokes the fix step, and no run of `synth.py` performs any
fix step. -/
theorem C5_fix_owlbot_only :
    (∀ (nodeLibrary : String → List (String × String)) (nodeFix : FileTree → FileTree)
        (tree t : FileTree),
        (owlbotRun nodeLibrary nodeFix tree).2 = .ok t →
        SynthEvent.fix ∈ (owlbotRun nodeLibrary nodeFix tree).1) ∧
    (∀ (nodeLibrary : String → List (String × String)) (tree : FileTree),
        SynthEvent.fix ∉ (synthRun nodeLibrary tree).1) := by
  constructor
  · intro nl nf tree t h
    cases hr : replaceFile (copyInto tree (nl "build/src") owlbotExcludes)
        configPath searchText replText with
    | error e => simp [owlbotRun, hr] at h
    | ok t2 => simp [owlbotRun, hr]
  · intro nl tree
    cases hr : replaceFile (copyInto tree (nl "build/src") [])
        configPath searchText replText with
    | error e => simp [synthRun, hr]
    | ok t2 => simp [synthRun, hr]

theorem C5_fix_owlbot_only_witness :
    SynthEvent.fix ∈ (owlbotRun (fun _ => [(configPath, "x")]) id []).1 :=
  C5_fix_owlbot_only.1 (fun _ => [(configPath, "x")]) id [] [(configPath, "x")]
    (by decide)

/-- Claim C6: the substitution applies exactly when `.circleci/config.yml`
exists in the tree it runs on, and on a missing file the error the replace
call raises propagates unchanged through either script, with no recovery. -/
theorem C6_missing_file_error :
    (∀ tree : FileTree,
        (∃ t, replaceFile tree configPath searchText replText = .ok t) ↔
          (lookupFile tree configPath).isSome) ∧
    (∀ (nodeLibrary : String → List (String × String)) (nodeFix : FileTree → FileTree)
        (tree : FileTree) (e : String),
        replaceFile (copyInto tree (nodeLibrary "build/src") owlbotExcludes)
            configPath searchText replText = .error e →
        (owlbotRun nodeLibrary nodeFix tree).2 = .error e) ∧
    (∀ (nodeLibrary : String → List (String × String)) (tree : FileTree) (e : String),
        replaceFile (copyInto tree (nodeLibrary "build/src") [])
            configPath searchText replText = .error e →
        (synthRun nodeLibrary tree).2 = .error e) := by
  refine ⟨?_, ?_, ?_⟩
  · intro tree
    cases hl : lookupFile tree configPath with
    | none => simp [replaceFile_error_eq tree configPath searchText replText hl]
    | some c => simp [replaceFile_ok_eq tree configPath searchText replText c hl]
  · intro nl nf tree e h
    simp [owlbotRun, h]
  · intro nl tree e h
    simp [synthRun, h]

theorem C6_missing_file_error_witness :
    (owlbotRun (fun _ => []) id []).2 =
      .error ("no file matching " ++ configPath) :=
  C6_missing_file_error.2.1 (fun _ => []) id [] ("no file matching " ++ configPath)
    (by decide)

/-- Claim C7: each script performs its operations in program order: fetch
the templates, copy, substitute, and (in `owlbot.py` only, last) fix; the
trace of any run is an initial segment of that order. -/
theorem C7_program_order :
    (∀ (nodeLibrary : String → List (String × String)) (nodeFix : FileTree → FileTree)
        (tree : FileTree),
        (owlbotRun nodeLibrary nodeFix tree).1 <+:
          [SynthEvent.fetchTemplates "build/src", SynthEvent.copy owlbotExcludes,
           SynthEvent.replace configPath searchText replText, SynthEvent.fix]) ∧
    (∀ (nodeLibrary : String → List (String × String)) (tree : FileTree),
        (synthRun nodeLibrary tree).1 =
          [SynthEvent.fetchTemplates "build/src", SynthEvent.copy [],
           SynthEvent.replace configPath searchText replText]) := by
  constructor
  · intro nl nf tree
    cases hr : replaceFile (copyInto tree (nl "build/src") owlbotExcludes)
        configPath searchText replText with
    | error e =>
      simp only [owlbotRun, hr]
      exact ⟨[SynthEvent.fix], rfl⟩
    | ok t2 =>
      simp only [owlbotRun, hr]
      exact List.prefix_rfl
  · intro nl tree
    cases hr : replaceFile (copyInto tree (nl "build/src") [])
        configPath searchText replText with
    | error e => simp [synthRun, hr]
    | ok t2 => simp [synthRun, hr]

/-- Claim C8: the substitution step modifies no file other than
`.circleci/config.yml`: every other path has the same content before and
after the replace step. -/
theorem C8_frame (tree t : FileTree) (q : String)
    (h : replaceFile tree configPath searchText replText = .ok t)
    (hq : q ≠ configPath) :
    lookupFile t q = lookupFile tree q := by
  cases hl : lookupFile tree configPath with
  | none =>
    rw [replaceFile_error_eq tree _ _ _ hl] at h
    cases h
  | some c =>
    rw [replaceFile_ok_eq tree _ _ _ c hl] at h
    injection h with h'
    subst h'
    rw [lookupFile_map_update, if_neg hq]

theorem C8_frame_witness :
    lookupFile [("package.json", "p"), (configPath, replText)] "package.json" =
      lookupFile [("package.json", "p"), (configPath, searchText)] "package.json" :=
  C8_frame [("package.json", "p"), (configPath, searchText)]
    [("package.json", "p"), (configPath, replText)] "package.json"
    (by decide) (by decide)

/-- Claim C9: after the substitution runs on a content containing the search
text, the content still contains "npm run system-test": the replacement only
prepends to the command, keeping the original invocation as a suffix of the
new command text. -/
theorem C9_invocation_preserved (c : String) (h : containsText c searchText) :
    containsText (replaceAllS searchText replText c) invocationText ∧
      invocationText.data <:+ replText.data := by
  constructor
  · have hr : replText.data <:+: (replaceAllS searchText replText c).data :=
      repl_occurs_of_occurs _ _ (by decide) c.data h
    have hi : invocationText.data <:+: replText.data := by decide
    exact hi.trans hr
  · decide

theorem C9_invocation_preserved_witness :
    containsText (replaceAllS searchText replText searchText) invocationText ∧
      invocationText.data <:+ replText.data :=
  C9_invocation_preserved searchText List.infix_rfl

/-- Claim C10: both scripts request the template set with the identical
argument `source_location='build/src'`, and `owlbot.py`'s copied set is
`synth.py`'s copied set minus the entries whose path is excluded. -/
theorem C10_same_source_location :
    (∀ (nodeLibrary : String → List (String × String)) (nodeFix : FileTree → FileTree)
        (tree : FileTree),
        (owlbotRun nodeLibrary nodeFix tree).1.head? =
          some (SynthEvent.fetchTemplates "build/src") ∧
        (synthRun nodeLibrary tree).1.head? =
          some (SynthEvent.fetchTemplates "build/src")) ∧
    (∀ templates : List (String × String),
        copiedSet templates owlbotExcludes =
          (copiedSet templates []).filter (fun f => !(owlbotExcludes.contains f.1))) := by
  constructor
  · intro nl nf tree
    constructor
    · cases hr : replaceFile (copyInto tree (nl "build/src") owlbotExcludes)
          configPath searchText replText <;> simp [owlbotRun, hr]
    · cases hr : replaceFile (copyInto tree (nl "build/src") [])
          configPath searchText replText <;> simp [synthRun, hr]
  · intro templates
    rw [copiedSet_nil]
    rfl

end NodeStorageSynth
